import Mathlib

/-!
Verification of the git-ladder statistics aggregation and query engine.

The aggregator is embedded from the function aggregateStats in
scripts/fetch-stats.js; the query engine from the DataService class in
src/js/DataService.js.  JavaScript Maps and objects are modelled as
insertion-ordered association lists with string keys: a read returns the
first matching entry, a write to an existing key updates that entry in
place, and a write to a fresh key appends at the end.
-/

namespace GitLadder

/-- JS map/object read: value of the first entry carrying the key. -/
def jsGet {α : Type} : List (String × α) → String → Option α
  | [], _ => none
  | (k', v) :: rest, k => if k' = k then some v else jsGet rest k

/-- JS key-presence test (the `users.has(login)` / `if (!obj[k])` pattern). -/
def hasKey {α : Type} (l : List (String × α)) (k : String) : Bool :=
  (jsGet l k).isSome

/-- JS in-place update of the entry carrying the key (writes to an existing
object property or Map key keep its position). -/
def updateEntry {α : Type} : List (String × α) → String → (α → α) → List (String × α)
  | [], _, _ => []
  | (k', v) :: rest, k, f =>
      if k' = k then (k', f v) :: rest else (k', v) :: updateEntry rest k f

@[simp] theorem jsGet_nil {α : Type} (k : String) :
    jsGet ([] : List (String × α)) k = none := rfl

@[simp] theorem jsGet_cons {α : Type} (k' k : String) (v : α) (l : List (String × α)) :
    jsGet ((k', v) :: l) k = if k' = k then some v else jsGet l k := rfl

@[simp] theorem updateEntry_nil {α : Type} (k : String) (f : α → α) :
    updateEntry ([] : List (String × α)) k f = [] := rfl

@[simp] theorem updateEntry_cons {α : Type} (k' k : String) (v : α)
    (l : List (String × α)) (f : α → α) :
    updateEntry ((k', v) :: l) k f =
      if k' = k then (k', f v) :: l else (k', v) :: updateEntry l k f := rfl

theorem jsGet_append {α : Type} (l₁ l₂ : List (String × α)) (k : String) :
    jsGet (l₁ ++ l₂) k = (jsGet l₁ k).or (jsGet l₂ k) := by
  induction l₁ with
  | nil => simp [Option.or]
  | cons p rest ih =>
      obtain ⟨k', v⟩ := p
      by_cases h : k' = k <;> simp [h, ih, Option.or]

theorem jsGet_updateEntry_self {α : Type} (l : List (String × α)) (k : String) (f : α → α) :
    jsGet (updateEntry l k f) k = (jsGet l k).map f := by
  induction l with
  | nil => simp
  | cons p rest ih =>
      obtain ⟨k', v⟩ := p
      by_cases h : k' = k <;> simp [h, ih]

theorem jsGet_updateEntry_other {α : Type} (l : List (String × α)) (k k' : String)
    (f : α → α) (hne : k ≠ k') :
    jsGet (updateEntry l k f) k' = jsGet l k' := by
  induction l with
  | nil => simp
  | cons p rest ih =>
      obtain ⟨k₀, v⟩ := p
      by_cases h : k₀ = k
      · subst h
        simp [updateEntry, if_neg hne]
      · have hne' : ¬k' = k := fun hh => hne hh.symm
        by_cases h' : k₀ = k' <;> simp [updateEntry, h, h', hne', ih]

theorem mem_updateEntry {α : Type} {l : List (String × α)} {k : String} {f : α → α}
    {p : String × α} (hp : p ∈ updateEntry l k f) :
    p ∈ l ∨ ∃ v, (p.1, v) ∈ l ∧ p.2 = f v := by
  induction l with
  | nil => simp [updateEntry] at hp
  | cons q rest ih =>
      obtain ⟨k₀, v₀⟩ := q
      by_cases h : k₀ = k
      · simp [updateEntry, h] at hp
        rcases hp with hp | hp
        · right
          refine ⟨v₀, ?_, by simp [hp]⟩
          simp [hp, h]
        · left
          simp [hp]
      · simp [updateEntry, h] at hp
        rcases hp with hp | hp
        · left
          simp [hp]
        · rcases ih hp with h' | ⟨v, hv, hfv⟩
          · left
            simp [h']
          · right
            exact ⟨v, by simp [hv], hfv⟩

/-! ### Dates

The aggregator reads the event timestamp with the JS Date API:
getFullYear() and getMonth() (zero-based month).  Only those two fields
matter to the code, so a date is modelled as that pair. -/

/-- Year and zero-based month (getMonth(), 0..11) of a JS Date. -/
structure JDate where
  year : Nat
  month : Nat
deriving DecidableEq, Repr

/-- The expression (n).toString().padStart(2, "0"). -/
def pad2 (n : Nat) : String :=
  let s := toString n
  if s.length < 2 then "0" ++ s else s

/-- date.getFullYear().toString() -/
def yearKey (d : JDate) : String := toString d.year

/-- (date.getMonth() + 1).toString().padStart(2, "0") -/
def monthKey (d : JDate) : String := pad2 (d.month + 1)

/-! ### Aggregator data model (scripts/fetch-stats.js) -/

/-- The user object attached to an event: login and avatar_url. -/
structure Actor where
  login : String
  avatar_url : String
deriving DecidableEq, Repr

/-- A commit event: commit.author (nullable) and commit.commit.author.date. -/
structure CommitEvent where
  author : Option Actor
  date : JDate
deriving DecidableEq, Repr

/-- A pull-request event: pr.user (nullable) and pr.created_at. -/
structure PullRequestEvent where
  user : Option Actor
  created_at : JDate
deriving DecidableEq, Repr

/-- A review event as built by fetchReviews: review.user and review.submitted_at. -/
structure ReviewEvent where
  user : Option Actor
  submitted_at : JDate
deriving DecidableEq, Repr

/-- A period bucket: { total: <int>, months: { "MM": <int>, ... } }. -/
structure Bucket where
  total : Nat
  months : List (String × Nat)
deriving DecidableEq, Repr

/-- A metric series: year key to period bucket. -/
abbrev Series := List (String × Bucket)

/-- A user summary as created by aggregateStats: every creation site writes
avatar plus the three (initially empty) metric series.  The defensive
`if (!user.codeReviews)` re-initialisation in the review loop can never
fire within a run, since all three creation sites include codeReviews. -/
structure AggUser where
  avatar : String
  commits : Series
  pullRequests : Series
  codeReviews : Series
deriving DecidableEq, Repr

/-- The users Map accumulated across one aggregation run. -/
abbrev AggUsers := List (String × AggUser)

/-- The three metric kinds. -/
inductive Metric where
  | commits
  | pullRequests
  | codeReviews
deriving DecidableEq, Repr

/-- Select one metric series of an aggregator user summary. -/
def AggUser.series (u : AggUser) : Metric → Series
  | Metric.commits => u.commits
  | Metric.pullRequests => u.pullRequests
  | Metric.codeReviews => u.codeReviews

/-- Ensure the year bucket and month counter exist, then increment both the
running total and the month counter by one (the body shared by the three
per-event loops of aggregateStats). -/
def bumpSeries (s : Series) (year month : String) : Series :=
  let s := if hasKey s year then s else s ++ [(year, { total := 0, months := [] })]
  updateEntry s year (fun b =>
    let months := if hasKey b.months month then b.months else b.months ++ [(month, 0)]
    { total := b.total + 1, months := updateEntry months month (· + 1) })

/-- The fresh user summary written at each creation site of aggregateStats. -/
def newAggUser (avatar : String) : AggUser :=
  { avatar := avatar, commits := [], pullRequests := [], codeReviews := [] }

/-- One iteration of the commit loop of aggregateStats. -/
def processCommit (users : AggUsers) (c : CommitEvent) : AggUsers :=
  match c.author with
  | none => users
  | some a =>
      let login := a.login
      let users :=
        if hasKey users login then users else users ++ [(login, newAggUser a.avatar_url)]
      updateEntry users login (fun u =>
        { u with commits := bumpSeries u.commits (yearKey c.date) (monthKey c.date) })

/-- One iteration of the pull-request loop of aggregateStats. -/
def processPullRequest (users : AggUsers) (pr : PullRequestEvent) : AggUsers :=
  match pr.user with
  | none => users
  | some a =>
      let login := a.login
      let users :=
        if hasKey users login then users else users ++ [(login, newAggUser a.avatar_url)]
      updateEntry users login (fun u =>
        { u with pullRequests := bumpSeries u.pullRequests (yearKey pr.created_at) (monthKey pr.created_at) })

/-- One iteration of the review loop of aggregateStats. -/
def processReview (users : AggUsers) (r : ReviewEvent) : AggUsers :=
  match r.user with
  | none => users
  | some a =>
      let login := a.login
      let users :=
        if hasKey users login then users else users ++ [(login, newAggUser a.avatar_url)]
      updateEntry users login (fun u =>
        { u with codeReviews := bumpSeries u.codeReviews (yearKey r.submitted_at) (monthKey r.submitted_at) })

/-- aggregateStats(users, commits, pullRequests, codeReviews): the three
event loops run in order over the caller-supplied accumulator. -/
def aggregateStats (users : AggUsers) (commits : List CommitEvent)
    (pullRequests : List PullRequestEvent) (codeReviews : List ReviewEvent) : AggUsers :=
  let users := commits.foldl processCommit users
  let users := pullRequests.foldl processPullRequest users
  codeReviews.foldl processReview users

/-! ### The bucket invariant (claim C1) -/

/-- Sum of the per-month counters of a months object. -/
def sumMonths (months : List (String × Nat)) : Nat :=
  (months.map (fun p => p.2)).sum

/-- Bucket invariant: the running total equals the sum of the month counters. -/
def bucketInv (b : Bucket) : Prop := b.total = sumMonths b.months

/-- Every bucket of a metric series satisfies the bucket invariant. -/
def seriesInv (s : Series) : Prop := ∀ p ∈ s, bucketInv p.2

/-- Every bucket of every metric series of every user satisfies the invariant. -/
def usersInv (users : AggUsers) : Prop :=
  ∀ p ∈ users, seriesInv p.2.commits ∧ seriesInv p.2.pullRequests ∧ seriesInv p.2.codeReviews

theorem sumMonths_append_zero (months : List (String × Nat)) (m : String) :
    sumMonths (months ++ [(m, 0)]) = sumMonths months := by
  simp [sumMonths]

theorem sumMonths_updateEntry_succ (months : List (String × Nat)) (m : String)
    (h : hasKey months m = true) :
    sumMonths (updateEntry months m (· + 1)) = sumMonths months + 1 := by
  induction months with
  | nil => simp [hasKey] at h
  | cons p rest ih =>
      obtain ⟨k, v⟩ := p
      by_cases hk : k = m
      · simp [hk, sumMonths, Nat.add_assoc, Nat.add_comm, Nat.add_left_comm]
      · have h' : hasKey rest m = true := by
          simpa [hasKey, hk] using h
        simp [hk, sumMonths] at ih ⊢
        simp [ih h', Nat.add_assoc]

theorem hasKey_ensure {α : Type} (l : List (String × α)) (k : String) (v : α) :
    hasKey (if hasKey l k then l else l ++ [(k, v)]) k = true := by
  by_cases h : hasKey l k = true
  · rw [if_pos h]
    exact h
  · rw [if_neg (by simp [h])]
    have hnone : jsGet l k = none := by
      simp [hasKey, Option.isSome_iff_exists] at h
      cases hg : jsGet l k with
      | none => rfl
      | some w => exact absurd hg (h w)
    simp [hasKey, jsGet_append, hnone, Option.or]

theorem bumpSeries_inv {s : Series} (hs : seriesInv s) (year month : String) :
    seriesInv (bumpSeries s year month) := by
  intro p hp
  unfold bumpSeries at hp
  set s' := if hasKey s year then s else s ++ [(year, { total := 0, months := [] })] with hs'
  have hs'inv : seriesInv s' := by
    rw [hs']
    by_cases h : hasKey s year = true
    · simpa [h] using hs
    · simp [h]
      intro q hq
      rcases List.mem_append.1 hq with hq | hq
      · exact hs q hq
      · simp at hq
        simp [hq, bucketInv, sumMonths]
  rcases mem_updateEntry hp with hmem | ⟨v, hv, hval⟩
  · exact hs'inv p hmem
  · have hvinv : bucketInv v := hs'inv (p.1, v) hv
    rw [hval]
    unfold bucketInv at hvinv ⊢
    simp only
    set months' := if hasKey v.months month then v.months else v.months ++ [(month, 0)] with hm'
    have hsum : sumMonths months' = sumMonths v.months := by
      rw [hm']
      by_cases h : hasKey v.months month = true
      · simp [h]
      · simp [h, sumMonths_append_zero]
    have hkey : hasKey months' month = true := by
      rw [hm']
      exact hasKey_ensure v.months month 0
    rw [sumMonths_updateEntry_succ months' month hkey, hsum, hvinv]

theorem usersInv_processCommit {users : AggUsers} (h : usersInv users) (c : CommitEvent) :
    usersInv (processCommit users c) := by
  unfold processCommit
  cases c.author with
  | none => exact h
  | some a =>
      simp only
      set users' := if hasKey users a.login then users
        else users ++ [(a.login, newAggUser a.avatar_url)] with hu'
      have h' : usersInv users' := by
        rw [hu']
        by_cases hk : hasKey users a.login = true
        · simpa [hk] using h
        · simp [hk]
          intro p hp
          rcases List.mem_append.1 hp with hp | hp
          · exact h p hp
          · simp at hp
            simp [hp, newAggUser, seriesInv]
      intro p hp
      rcases mem_updateEntry hp with hmem | ⟨v, hv, hval⟩
      · exact h' p hmem
      · have hvinv := h' (p.1, v) hv
        rw [hval]
        exact ⟨bumpSeries_inv hvinv.1 _ _, hvinv.2.1, hvinv.2.2⟩

theorem usersInv_processPullRequest {users : AggUsers} (h : usersInv users)
    (pr : PullRequestEvent) : usersInv (processPullRequest users pr) := by
  unfold processPullRequest
  cases pr.user with
  | none => exact h
  | some a =>
      simp only
      set users' := if hasKey users a.login then users
        else users ++ [(a.login, newAggUser a.avatar_url)] with hu'
      have h' : usersInv users' := by
        rw [hu']
        by_cases hk : hasKey users a.login = true
        · simpa [hk] using h
        · simp [hk]
          intro p hp
          rcases List.mem_append.1 hp with hp | hp
          · exact h p hp
          · simp at hp
            simp [hp, newAggUser, seriesInv]
      intro p hp
      rcases mem_updateEntry hp with hmem | ⟨v, hv, hval⟩
      · exact h' p hmem
      · have hvinv := h' (p.1, v) hv
        rw [hval]
        exact ⟨hvinv.1, bumpSeries_inv hvinv.2.1 _ _, hvinv.2.2⟩

theorem usersInv_processReview {users : AggUsers} (h : usersInv users)
    (r : ReviewEvent) : usersInv (processReview users r) := by
  unfold processReview
  cases r.user with
  | none => exact h
  | some a =>
      simp only
      set users' := if hasKey users a.login then users
        else users ++ [(a.login, newAggUser a.avatar_url)] with hu'
      have h' : usersInv users' := by
        rw [hu']
        by_cases hk : hasKey users a.login = true
        · simpa [hk] using h
        · simp [hk]
          intro p hp
          rcases List.mem_append.1 hp with hp | hp
          · exact h p hp
          · simp at hp
            simp [hp, newAggUser, seriesInv]
      intro p hp
      rcases mem_updateEntry hp with hmem | ⟨v, hv, hval⟩
      · exact h' p hmem
      · have hvinv := h' (p.1, v) hv
        rw [hval]
        exact ⟨hvinv.1, hvinv.2.1, bumpSeries_inv hvinv.2.2 _ _⟩

theorem usersInv_foldl_commits {users : AggUsers} (h : usersInv users)
    (cs : List CommitEvent) : usersInv (cs.foldl processCommit users) := by
  induction cs generalizing users with
  | nil => exact h
  | cons c rest ih => exact ih (usersInv_processCommit h c)

theorem usersInv_foldl_pullRequests {users : AggUsers} (h : usersInv users)
    (ps : List PullRequestEvent) : usersInv (ps.foldl processPullRequest users) := by
  induction ps generalizing users with
  | nil => exact h
  | cons p rest ih => exact ih (usersInv_processPullRequest h p)

theorem usersInv_foldl_reviews {users : AggUsers} (h : usersInv users)
    (rs : List ReviewEvent) : usersInv (rs.foldl processReview users) := by
  induction rs generalizing users with
  | nil => exact h
  | cons r rest ih => exact ih (usersInv_processReview h r)

/-- C1.  After each processed event of any metric kind, and hence after any
complete aggregateStats run, every (user, metric kind, year) period bucket
of the accumulator has its total equal to the sum of its per-month counts,
provided the accumulator satisfied that invariant beforehand.  Every
intermediate state of a run arises from the empty accumulator by the three
single-event steps, so the invariant holds at every point of every run. -/
theorem aggregateStats_bucket_invariant (users : AggUsers) (h : usersInv users) :
    (∀ c, usersInv (processCommit users c)) ∧
    (∀ pr, usersInv (processPullRequest users pr)) ∧
    (∀ r, usersInv (processReview users r)) ∧
    (∀ cs ps rs, usersInv (aggregateStats users cs ps rs)) := by
  refine ⟨fun c => usersInv_processCommit h c,
          fun pr => usersInv_processPullRequest h pr,
          fun r => usersInv_processReview h r,
          fun cs ps rs => ?_⟩
  unfold aggregateStats
  exact usersInv_foldl_reviews (usersInv_foldl_pullRequests (usersInv_foldl_commits h cs) ps) rs

/-- A sample commit event used by concrete witnesses. -/
def sampleCommit : CommitEvent :=
  { author := some { login := "alice", avatar_url := "a.png" }, date := { year := 2024, month := 2 } }

/-- A sample pull-request event used by concrete witnesses. -/
def samplePullRequest : PullRequestEvent :=
  { user := some { login := "alice", avatar_url := "a.png" }, created_at := { year := 2024, month := 2 } }

/-- A sample review event used by concrete witnesses. -/
def sampleReview : ReviewEvent :=
  { user := some { login := "bob", avatar_url := "b.png" }, submitted_at := { year := 2024, month := 2 } }

/-- C1 witness: the empty accumulator satisfies the invariant, and the run
on one event of each kind preserves it. -/
theorem aggregateStats_bucket_invariant_witness :
    usersInv ([] : AggUsers) ∧
    usersInv (aggregateStats [] [sampleCommit] [samplePullRequest] [sampleReview]) := by
  have hempty : usersInv ([] : AggUsers) := by
    intro p hp
    simp at hp
  exact ⟨hempty,
    (aggregateStats_bucket_invariant [] hempty).2.2.2 [sampleCommit] [samplePullRequest] [sampleReview]⟩

/-! ### Avatar behaviour (claim C7)

Each event loop of aggregateStats writes the avatar only inside the
users.set call guarded by !users.has(login): the value seen on the first
event for a username sticks, later events never touch it. -/

/-- The avatar stored for a username, if that user exists. -/
def avatarObs (users : AggUsers) (login : String) : Option String :=
  (jsGet users login).map (fun u => u.avatar)

/-- The avatar a commit event would contribute for the given username. -/
def commitAvatarFor (c : CommitEvent) (login : String) : Option String :=
  match c.author with
  | none => none
  | some a => if a.login = login then some a.avatar_url else none

/-- The avatar a pull-request event would contribute for the given username. -/
def prAvatarFor (pr : PullRequestEvent) (login : String) : Option String :=
  match pr.user with
  | none => none
  | some a => if a.login = login then some a.avatar_url else none

/-- The avatar a review event would contribute for the given username. -/
def reviewAvatarFor (r : ReviewEvent) (login : String) : Option String :=
  match r.user with
  | none => none
  | some a => if a.login = login then some a.avatar_url else none

/-- Avatar of the first event carrying the username, in processing order
(commits, then pull requests, then reviews). -/
def firstAvatar (cs : List CommitEvent) (ps : List PullRequestEvent)
    (rs : List ReviewEvent) (login : String) : Option String :=
  (cs.findSome? (fun c => commitAvatarFor c login)).or
    ((ps.findSome? (fun p => prAvatarFor p login)).or
      (rs.findSome? (fun r => reviewAvatarFor r login)))

theorem jsGet_ensure {α : Type} (l : List (String × α)) (k : String) (v : α) :
    jsGet (if hasKey l k then l else l ++ [(k, v)]) k = some ((jsGet l k).getD v) := by
  by_cases h : hasKey l k = true
  · rw [if_pos h]
    cases hg : jsGet l k with
    | none => simp [hasKey, hg] at h
    | some w => simp [hg]
  · rw [if_neg (by simp [h])]
    have hnone : jsGet l k = none := by
      cases hg : jsGet l k with
      | none => rfl
      | some w => exact absurd (by simp [hasKey, hg]) h
    simp [jsGet_append, hnone, Option.or]

theorem jsGet_ensure_other {α : Type} (l : List (String × α)) (k k' : String) (v : α)
    (h : k ≠ k') :
    jsGet (if hasKey l k then l else l ++ [(k, v)]) k' = jsGet l k' := by
  by_cases hk : hasKey l k = true
  · rw [if_pos hk]
  · rw [if_neg (by simp [hk]), jsGet_append]
    simp [h, Option.or_none]

theorem avatarObs_processCommit (users : AggUsers) (c : CommitEvent) (login : String) :
    avatarObs (processCommit users c) login
      = (avatarObs users login).or (commitAvatarFor c login) := by
  unfold processCommit commitAvatarFor
  cases c.author with
  | none => simp [Option.or_none]
  | some a =>
      simp only
      by_cases hl : a.login = login
      · subst hl
        unfold avatarObs
        rw [jsGet_updateEntry_self, jsGet_ensure]
        cases hg : jsGet users a.login with
        | none => simp [newAggUser, Option.or]
        | some u => simp [Option.or]
      · unfold avatarObs
        rw [jsGet_updateEntry_other _ _ _ _ hl, jsGet_ensure_other _ _ _ _ hl]
        simp [hl, Option.or_none]

theorem avatarObs_processPullRequest (users : AggUsers) (pr : PullRequestEvent) (login : String) :
    avatarObs (processPullRequest users pr) login
      = (avatarObs users login).or (prAvatarFor pr login) := by
  unfold processPullRequest prAvatarFor
  cases pr.user with
  | none => simp [Option.or_none]
  | some a =>
      simp only
      by_cases hl : a.login = login
      · subst hl
        unfold avatarObs
        rw [jsGet_updateEntry_self, jsGet_ensure]
        cases hg : jsGet users a.login with
        | none => simp [newAggUser, Option.or]
        | some u => simp [Option.or]
      · unfold avatarObs
        rw [jsGet_updateEntry_other _ _ _ _ hl, jsGet_ensure_other _ _ _ _ hl]
        simp [hl, Option.or_none]

theorem avatarObs_processReview (users : AggUsers) (r : ReviewEvent) (login : String) :
    avatarObs (processReview users r) login
      = (avatarObs users login).or (reviewAvatarFor r login) := by
  unfold processReview reviewAvatarFor
  cases r.user with
  | none => simp [Option.or_none]
  | some a =>
      simp only
      by_cases hl : a.login = login
      · subst hl
        unfold avatarObs
        rw [jsGet_updateEntry_self, jsGet_ensure]
        cases hg : jsGet users a.login with
        | none => simp [newAggUser, Option.or]
        | some u => simp [Option.or]
      · unfold avatarObs
        rw [jsGet_updateEntry_other _ _ _ _ hl, jsGet_ensure_other _ _ _ _ hl]
        simp [hl, Option.or_none]

theorem avatarObs_foldl_commits (users : AggUsers) (cs : List CommitEvent) (login : String) :
    avatarObs (cs.foldl processCommit users) login
      = (avatarObs users login).or (cs.findSome? (fun c => commitAvatarFor c login)) := by
  induction cs generalizing users with
  | nil => simp [Option.or_none]
  | cons c rest ih =>
      simp only [List.foldl_cons, List.findSome?_cons]
      rw [ih, avatarObs_processCommit]
      cases hc : commitAvatarFor c login with
      | none => simp [Option.or_none]
      | some av => simp [Option.or_assoc]

theorem avatarObs_foldl_pullRequests (users : AggUsers) (ps : List PullRequestEvent)
    (login : String) :
    avatarObs (ps.foldl processPullRequest users) login
      = (avatarObs users login).or (ps.findSome? (fun p => prAvatarFor p login)) := by
  induction ps generalizing users with
  | nil => simp [Option.or_none]
  | cons p rest ih =>
      simp only [List.foldl_cons, List.findSome?_cons]
      rw [ih, avatarObs_processPullRequest]
      cases hp : prAvatarFor p login with
      | none => simp [Option.or_none]
      | some av => simp [Option.or_assoc]

theorem avatarObs_foldl_reviews (users : AggUsers) (rs : List ReviewEvent) (login : String) :
    avatarObs (rs.foldl processReview users) login
      = (avatarObs users login).or (rs.findSome? (fun r => reviewAvatarFor r login)) := by
  induction rs generalizing users with
  | nil => simp [Option.or_none]
  | cons r rest ih =>
      simp only [List.foldl_cons, List.findSome?_cons]
      rw [ih, avatarObs_processReview]
      cases hr : reviewAvatarFor r login with
      | none => simp [Option.or_none]
      | some av => simp [Option.or_assoc]

/-- C7 amended.  The avatar stored in a users summary after an aggregation
run is the avatar of the FIRST processed event carrying that username (in
processing order: commits, then pull requests, then reviews); an avatar
already present in the accumulator is never overwritten.  First-seen wins,
not most-recently-seen. -/
theorem aggregateStats_avatar_first_seen (users : AggUsers) (cs : List CommitEvent)
    (ps : List PullRequestEvent) (rs : List ReviewEvent) (login : String) :
    avatarObs (aggregateStats users cs ps rs) login
      = (avatarObs users login).or (firstAvatar cs ps rs login) := by
  unfold aggregateStats firstAvatar
  rw [avatarObs_foldl_reviews, avatarObs_foldl_pullRequests, avatarObs_foldl_commits,
    Option.or_assoc, Option.or_assoc]

/-- A commit by alice carrying avatar a1.png, processed before sampleNewerCommit. -/
def sampleOlderCommit : CommitEvent :=
  { author := some { login := "alice", avatar_url := "a1.png" }, date := { year := 2024, month := 0 } }

/-- A later commit by alice carrying a different avatar a2.png. -/
def sampleNewerCommit : CommitEvent :=
  { author := some { login := "alice", avatar_url := "a2.png" }, date := { year := 2024, month := 1 } }

/-- C7 counterexample.  Processing two commits by the same username with
different avatars stores the avatar of the first event, not of the most
recently seen one: the claim fails on this input. -/
theorem avatar_most_recent_counterexample :
    avatarObs (aggregateStats [] [sampleOlderCommit, sampleNewerCommit] [] []) "alice"
        = some "a1.png" ∧
    avatarObs (aggregateStats [] [sampleOlderCommit, sampleNewerCommit] [] []) "alice"
        ≠ some "a2.png" := by
  constructor
  · rfl
  · decide

/-! ### Counting characterization of aggregateStats (claim C6) -/

/-- The per-month counter of one series at a year/month key pair. -/
def seriesMonth (s : Series) (year month : String) : Nat :=
  ((jsGet s year).map (fun b => (jsGet b.months month).getD 0)).getD 0

/-- The running total of one series at a year key. -/
def seriesTotal (s : Series) (year : String) : Nat :=
  ((jsGet s year).map (fun b => b.total)).getD 0

/-- The metric series a username owns, empty if the user does not exist. -/
def userSeriesOf (users : AggUsers) (metric : Metric) (login : String) : Series :=
  ((jsGet users login).map (fun u => u.series metric)).getD []

/-- Per-month counter observation on the whole accumulator. -/
def monthCount (users : AggUsers) (metric : Metric) (login year month : String) : Nat :=
  seriesMonth (userSeriesOf users metric login) year month

/-- Year-total observation on the whole accumulator. -/
def yearTotal (users : AggUsers) (metric : Metric) (login year : String) : Nat :=
  seriesTotal (userSeriesOf users metric login) year

/-- Whether a username exists in the accumulator. -/
def hasUser (users : AggUsers) (login : String) : Bool := hasKey users login

/-- Whether a commit event counts for the (login, year, month) cell. -/
def commitHitMonth (c : CommitEvent) (login year month : String) : Bool :=
  match c.author with
  | none => false
  | some a => a.login = login && yearKey c.date = year && monthKey c.date = month

/-- Whether a commit event counts for the (login, year) total. -/
def commitHitYear (c : CommitEvent) (login year : String) : Bool :=
  match c.author with
  | none => false
  | some a => a.login = login && yearKey c.date = year

/-- Whether a commit event carries the username at all. -/
def commitHasLogin (c : CommitEvent) (login : String) : Bool :=
  match c.author with
  | none => false
  | some a => a.login = login

/-- Whether a pull-request event counts for the (login, year, month) cell. -/
def prHitMonth (pr : PullRequestEvent) (login year month : String) : Bool :=
  match pr.user with
  | none => false
  | some a => a.login = login && yearKey pr.created_at = year && monthKey pr.created_at = month

/-- Whether a pull-request event counts for the (login, year) total. -/
def prHitYear (pr : PullRequestEvent) (login year : String) : Bool :=
  match pr.user with
  | none => false
  | some a => a.login = login && yearKey pr.created_at = year

/-- Whether a pull-request event carries the username at all. -/
def prHasLogin (pr : PullRequestEvent) (login : String) : Bool :=
  match pr.user with
  | none => false
  | some a => a.login = login

/-- Whether a review event counts for the (login, year, month) cell. -/
def reviewHitMonth (r : ReviewEvent) (login year month : String) : Bool :=
  match r.user with
  | none => false
  | some a => a.login = login && yearKey r.submitted_at = year && monthKey r.submitted_at = month

/-- Whether a review event counts for the (login, year) total. -/
def reviewHitYear (r : ReviewEvent) (login year : String) : Bool :=
  match r.user with
  | none => false
  | some a => a.login = login && yearKey r.submitted_at = year

/-- Whether a review event carries the username at all. -/
def reviewHasLogin (r : ReviewEvent) (login : String) : Bool :=
  match r.user with
  | none => false
  | some a => a.login = login

theorem getD_total (o : Option Bucket) :
    ((o.getD { total := 0, months := [] }).total) = (o.map (fun b => b.total)).getD 0 := by
  cases o <;> rfl

theorem seriesTotal_bumpSeries (s : Series) (yk mk y : String) :
    seriesTotal (bumpSeries s yk mk) y = seriesTotal s y + (if yk = y then 1 else 0) := by
  unfold bumpSeries seriesTotal
  by_cases hy : yk = y
  · subst hy
    rw [jsGet_updateEntry_self, jsGet_ensure]
    cases hg : jsGet s yk with
    | none => simp
    | some b => simp
  · rw [jsGet_updateEntry_other _ _ _ _ hy, jsGet_ensure_other _ _ _ _ hy]
    simp [hy]

theorem seriesMonth_bumpSeries (s : Series) (yk mk y m : String) :
    seriesMonth (bumpSeries s yk mk) y m
      = seriesMonth s y m + (if yk = y && mk = m then 1 else 0) := by
  unfold bumpSeries seriesMonth
  by_cases hy : yk = y
  · subst hy
    rw [jsGet_updateEntry_self, jsGet_ensure]
    by_cases hm : mk = m
    · subst hm
      cases hg : jsGet s yk with
      | none => simp [jsGet_updateEntry_self, jsGet_ensure, hasKey]
      | some b => simp [jsGet_updateEntry_self, jsGet_ensure]
    · cases hg : jsGet s yk with
      | none =>
          simp [jsGet_updateEntry_other _ _ _ _ hm, jsGet_ensure_other _ _ _ _ hm, hm, hasKey]
      | some b =>
          simp [jsGet_updateEntry_other _ _ _ _ hm, jsGet_ensure_other _ _ _ _ hm, hm]
  · rw [jsGet_updateEntry_other _ _ _ _ hy, jsGet_ensure_other _ _ _ _ hy]
    simp [hy]

theorem userSeriesOf_processCommit_commits (users : AggUsers) (c : CommitEvent)
    (login : String) :
    userSeriesOf (processCommit users c) Metric.commits login
      = match c.author with
        | none => userSeriesOf users Metric.commits login
        | some a =>
            if a.login = login
            then bumpSeries (userSeriesOf users Metric.commits login)
                   (yearKey c.date) (monthKey c.date)
            else userSeriesOf users Metric.commits login := by
  unfold processCommit
  cases c.author with
  | none => rfl
  | some a =>
      simp only
      by_cases hl : a.login = login
      · subst hl
        unfold userSeriesOf
        rw [jsGet_updateEntry_self, jsGet_ensure]
        cases hg : jsGet users a.login with
        | none => simp [newAggUser, AggUser.series]
        | some u => simp [AggUser.series]
      · unfold userSeriesOf
        rw [jsGet_updateEntry_other _ _ _ _ hl, jsGet_ensure_other _ _ _ _ hl]
        simp [hl]

theorem userSeriesOf_processCommit_other (users : AggUsers) (c : CommitEvent)
    (login : String) (metric : Metric) (hm : metric ≠ Metric.commits) :
    userSeriesOf (processCommit users c) metric login
      = userSeriesOf users metric login := by
  unfold processCommit
  cases c.author with
  | none => rfl
  | some a =>
      simp only
      by_cases hl : a.login = login
      · subst hl
        unfold userSeriesOf
        rw [jsGet_updateEntry_self, jsGet_ensure]
        cases hg : jsGet users a.login with
        | none => cases metric <;> simp [newAggUser, AggUser.series] at hm ⊢
        | some u => cases metric <;> simp [AggUser.series] at hm ⊢
      · unfold userSeriesOf
        rw [jsGet_updateEntry_other _ _ _ _ hl, jsGet_ensure_other _ _ _ _ hl]

theorem userSeriesOf_processPullRequest_pullRequests (users : AggUsers)
    (pr : PullRequestEvent) (login : String) :
    userSeriesOf (processPullRequest users pr) Metric.pullRequests login
      = match pr.user with
        | none => userSeriesOf users Metric.pullRequests login
        | some a =>
            if a.login = login
            then bumpSeries (userSeriesOf users Metric.pullRequests login)
                   (yearKey pr.created_at) (monthKey pr.created_at)
            else userSeriesOf users Metric.pullRequests login := by
  unfold processPullRequest
  cases pr.user with
  | none => rfl
  | some a =>
      simp only
      by_cases hl : a.login = login
      · subst hl
        unfold userSeriesOf
        rw [jsGet_updateEntry_self, jsGet_ensure]
        cases hg : jsGet users a.login with
        | none => simp [newAggUser, AggUser.series]
        | some u => simp [AggUser.series]
      · unfold userSeriesOf
        rw [jsGet_updateEntry_other _ _ _ _ hl, jsGet_ensure_other _ _ _ _ hl]
        simp [hl]

theorem userSeriesOf_processPullRequest_other (users : AggUsers) (pr : PullRequestEvent)
    (login : String) (metric : Metric) (hm : metric ≠ Metric.pullRequests) :
    userSeriesOf (processPullRequest users pr) metric login
      = userSeriesOf users metric login := by
  unfold processPullRequest
  cases pr.user with
  | none => rfl
  | some a =>
      simp only
      by_cases hl : a.login = login
      · subst hl
        unfold userSeriesOf
        rw [jsGet_updateEntry_self, jsGet_ensure]
        cases hg : jsGet users a.login with
        | none => cases metric <;> simp [newAggUser, AggUser.series] at hm ⊢
        | some u => cases metric <;> simp [AggUser.series] at hm ⊢
      · unfold userSeriesOf
        rw [jsGet_updateEntry_other _ _ _ _ hl, jsGet_ensure_other _ _ _ _ hl]

theorem userSeriesOf_processReview_codeReviews (users : AggUsers) (r : ReviewEvent)
    (login : String) :
    userSeriesOf (processReview users r) Metric.codeReviews login
      = match r.user with
        | none => userSeriesOf users Metric.codeReviews login
        | some a =>
            if a.login = login
            then bumpSeries (userSeriesOf users Metric.codeReviews login)
                   (yearKey r.submitted_at) (monthKey r.submitted_at)
            else userSeriesOf users Metric.codeReviews login := by
  unfold processReview
  cases r.user with
  | none => rfl
  | some a =>
      simp only
      by_cases hl : a.login = login
      · subst hl
        unfold userSeriesOf
        rw [jsGet_updateEntry_self, jsGet_ensure]
        cases hg : jsGet users a.login with
        | none => simp [newAggUser, AggUser.series]
        | some u => simp [AggUser.series]
      · unfold userSeriesOf
        rw [jsGet_updateEntry_other _ _ _ _ hl, jsGet_ensure_other _ _ _ _ hl]
        simp [hl]

theorem userSeriesOf_processReview_other (users : AggUsers) (r : ReviewEvent)
    (login : String) (metric : Metric) (hm : metric ≠ Metric.codeReviews) :
    userSeriesOf (processReview users r) metric login
      = userSeriesOf users metric login := by
  unfold processReview
  cases r.user with
  | none => rfl
  | some a =>
      simp only
      by_cases hl : a.login = login
      · subst hl
        unfold userSeriesOf
        rw [jsGet_updateEntry_self, jsGet_ensure]
        cases hg : jsGet users a.login with
        | none => cases metric <;> simp [newAggUser, AggUser.series] at hm ⊢
        | some u => cases metric <;> simp [AggUser.series] at hm ⊢
      · unfold userSeriesOf
        rw [jsGet_updateEntry_other _ _ _ _ hl, jsGet_ensure_other _ _ _ _ hl]

theorem monthCount_processCommit (users : AggUsers) (c : CommitEvent) (login y m : String) :
    monthCount (processCommit users c) Metric.commits login y m
      = monthCount users Metric.commits login y m
          + (if commitHitMonth c login y m then 1 else 0) := by
  unfold monthCount commitHitMonth
  rw [userSeriesOf_processCommit_commits]
  cases c.author with
  | none => simp
  | some a =>
      by_cases hl : a.login = login
      · simp [hl, seriesMonth_bumpSeries, Bool.and_assoc]
      · simp [hl]

theorem yearTotal_processCommit (users : AggUsers) (c : CommitEvent) (login y : String) :
    yearTotal (processCommit users c) Metric.commits login y
      = yearTotal users Metric.commits login y
          + (if commitHitYear c login y then 1 else 0) := by
  unfold yearTotal commitHitYear
  rw [userSeriesOf_processCommit_commits]
  cases c.author with
  | none => simp
  | some a =>
      by_cases hl : a.login = login
      · simp [hl, seriesTotal_bumpSeries]
      · simp [hl]

theorem monthCount_processPullRequest (users : AggUsers) (pr : PullRequestEvent)
    (login y m : String) :
    monthCount (processPullRequest users pr) Metric.pullRequests login y m
      = monthCount users Metric.pullRequests login y m
          + (if prHitMonth pr login y m then 1 else 0) := by
  unfold monthCount prHitMonth
  rw [userSeriesOf_processPullRequest_pullRequests]
  cases pr.user with
  | none => simp
  | some a =>
      by_cases hl : a.login = login
      · simp [hl, seriesMonth_bumpSeries, Bool.and_assoc]
      · simp [hl]

theorem yearTotal_processPullRequest (users : AggUsers) (pr : PullRequestEvent)
    (login y : String) :
    yearTotal (processPullRequest users pr) Metric.pullRequests login y
      = yearTotal users Metric.pullRequests login y
          + (if prHitYear pr login y then 1 else 0) := by
  unfold yearTotal prHitYear
  rw [userSeriesOf_processPullRequest_pullRequests]
  cases pr.user with
  | none => simp
  | some a =>
      by_cases hl : a.login = login
      · simp [hl, seriesTotal_bumpSeries]
      · simp [hl]

theorem monthCount_processReview (users : AggUsers) (r : ReviewEvent) (login y m : String) :
    monthCount (processReview users r) Metric.codeReviews login y m
      = monthCount users Metric.codeReviews login y m
          + (if reviewHitMonth r login y m then 1 else 0) := by
  unfold monthCount reviewHitMonth
  rw [userSeriesOf_processReview_codeReviews]
  cases r.user with
  | none => simp
  | some a =>
      by_cases hl : a.login = login
      · simp [hl, seriesMonth_bumpSeries, Bool.and_assoc]
      · simp [hl]

theorem yearTotal_processReview (users : AggUsers) (r : ReviewEvent) (login y : String) :
    yearTotal (processReview users r) Metric.codeReviews login y
      = yearTotal users Metric.codeReviews login y
          + (if reviewHitYear r login y then 1 else 0) := by
  unfold yearTotal reviewHitYear
  rw [userSeriesOf_processReview_codeReviews]
  cases r.user with
  | none => simp
  | some a =>
      by_cases hl : a.login = login
      · simp [hl, seriesTotal_bumpSeries]
      · simp [hl]

theorem hasKey_updateEntry {α : Type} (l : List (String × α)) (k : String) (f : α → α)
    (k' : String) : hasKey (updateEntry l k f) k' = hasKey l k' := by
  unfold hasKey
  by_cases h : k = k'
  · subst h
    rw [jsGet_updateEntry_self]
    cases jsGet l k <;> simp
  · rw [jsGet_updateEntry_other _ _ _ _ h]

theorem hasKey_ensure_other {α : Type} (l : List (String × α)) (k k' : String) (v : α)
    (h : k ≠ k') :
    hasKey (if hasKey l k then l else l ++ [(k, v)]) k' = hasKey l k' := by
  have h2 := jsGet_ensure_other l k k' v h
  unfold hasKey
  simp only [hasKey] at h2
  rw [h2]

theorem hasUser_processCommit (users : AggUsers) (c : CommitEvent) (login : String) :
    hasUser (processCommit users c) login
      = (hasUser users login || commitHasLogin c login) := by
  unfold hasUser processCommit commitHasLogin
  cases c.author with
  | none => simp
  | some a =>
      simp only
      rw [hasKey_updateEntry]
      by_cases hl : a.login = login
      · subst hl
        rw [hasKey_ensure]
        simp
      · rw [hasKey_ensure_other _ _ _ _ hl]
        simp [hl]

theorem hasUser_processPullRequest (users : AggUsers) (pr : PullRequestEvent) (login : String) :
    hasUser (processPullRequest users pr) login
      = (hasUser users login || prHasLogin pr login) := by
  unfold hasUser processPullRequest prHasLogin
  cases pr.user with
  | none => simp
  | some a =>
      simp only
      rw [hasKey_updateEntry]
      by_cases hl : a.login = login
      · subst hl
        rw [hasKey_ensure]
        simp
      · rw [hasKey_ensure_other _ _ _ _ hl]
        simp [hl]

theorem hasUser_processReview (users : AggUsers) (r : ReviewEvent) (login : String) :
    hasUser (processReview users r) login
      = (hasUser users login || reviewHasLogin r login) := by
  unfold hasUser processReview reviewHasLogin
  cases r.user with
  | none => simp
  | some a =>
      simp only
      rw [hasKey_updateEntry]
      by_cases hl : a.login = login
      · subst hl
        rw [hasKey_ensure]
        simp
      · rw [hasKey_ensure_other _ _ _ _ hl]
        simp [hl]

theorem monthCount_foldl_commits (users : AggUsers) (cs : List CommitEvent)
    (login y m : String) :
    monthCount (cs.foldl processCommit users) Metric.commits login y m
      = monthCount users Metric.commits login y m
          + cs.countP (fun c => commitHitMonth c login y m) := by
  induction cs generalizing users with
  | nil => simp
  | cons c rest ih =>
      simp only [List.foldl_cons, List.countP_cons]
      rw [ih, monthCount_processCommit]
      cases h : commitHitMonth c login y m <;> simp [h] <;> omega

theorem yearTotal_foldl_commits (users : AggUsers) (cs : List CommitEvent) (login y : String) :
    yearTotal (cs.foldl processCommit users) Metric.commits login y
      = yearTotal users Metric.commits login y
          + cs.countP (fun c => commitHitYear c login y) := by
  induction cs generalizing users with
  | nil => simp
  | cons c rest ih =>
      simp only [List.foldl_cons, List.countP_cons]
      rw [ih, yearTotal_processCommit]
      cases h : commitHitYear c login y <;> simp [h] <;> omega

theorem monthCount_foldl_pullRequests (users : AggUsers) (ps : List PullRequestEvent)
    (login y m : String) :
    monthCount (ps.foldl processPullRequest users) Metric.pullRequests login y m
      = monthCount users Metric.pullRequests login y m
          + ps.countP (fun p => prHitMonth p login y m) := by
  induction ps generalizing users with
  | nil => simp
  | cons p rest ih =>
      simp only [List.foldl_cons, List.countP_cons]
      rw [ih, monthCount_processPullRequest]
      cases h : prHitMonth p login y m <;> simp [h] <;> omega

theorem yearTotal_foldl_pullRequests (users : AggUsers) (ps : List PullRequestEvent)
    (login y : String) :
    yearTotal (ps.foldl processPullRequest users) Metric.pullRequests login y
      = yearTotal users Metric.pullRequests login y
          + ps.countP (fun p => prHitYear p login y) := by
  induction ps generalizing users with
  | nil => simp
  | cons p rest ih =>
      simp only [List.foldl_cons, List.countP_cons]
      rw [ih, yearTotal_processPullRequest]
      cases h : prHitYear p login y <;> simp [h] <;> omega

theorem monthCount_foldl_reviews (users : AggUsers) (rs : List ReviewEvent)
    (login y m : String) :
    monthCount (rs.foldl processReview users) Metric.codeReviews login y m
      = monthCount users Metric.codeReviews login y m
          + rs.countP (fun r => reviewHitMonth r login y m) := by
  induction rs generalizing users with
  | nil => simp
  | cons r rest ih =>
      simp only [List.foldl_cons, List.countP_cons]
      rw [ih, monthCount_processReview]
      cases h : reviewHitMonth r login y m <;> simp [h] <;> omega

theorem yearTotal_foldl_reviews (users : AggUsers) (rs : List ReviewEvent) (login y : String) :
    yearTotal (rs.foldl processReview users) Metric.codeReviews login y
      = yearTotal users Metric.codeReviews login y
          + rs.countP (fun r => reviewHitYear r login y) := by
  induction rs generalizing users with
  | nil => simp
  | cons r rest ih =>
      simp only [List.foldl_cons, List.countP_cons]
      rw [ih, yearTotal_processReview]
      cases h : reviewHitYear r login y <;> simp [h] <;> omega

theorem userSeriesOf_foldl_commits_other (users : AggUsers) (cs : List CommitEvent)
    (login : String) (metric : Metric) (h : metric ≠ Metric.commits) :
    userSeriesOf (cs.foldl processCommit users) metric login
      = userSeriesOf users metric login := by
  induction cs generalizing users with
  | nil => rfl
  | cons c rest ih =>
      simp only [List.foldl_cons]
      rw [ih, userSeriesOf_processCommit_other _ _ _ _ h]

theorem userSeriesOf_foldl_pullRequests_other (users : AggUsers)
    (ps : List PullRequestEvent) (login : String) (metric : Metric)
    (h : metric ≠ Metric.pullRequests) :
    userSeriesOf (ps.foldl processPullRequest users) metric login
      = userSeriesOf users metric login := by
  induction ps generalizing users with
  | nil => rfl
  | cons p rest ih =>
      simp only [List.foldl_cons]
      rw [ih, userSeriesOf_processPullRequest_other _ _ _ _ h]

theorem userSeriesOf_foldl_reviews_other (users : AggUsers) (rs : List ReviewEvent)
    (login : String) (metric : Metric) (h : metric ≠ Metric.codeReviews) :
    userSeriesOf (rs.foldl processReview users) metric login
      = userSeriesOf users metric login := by
  induction rs generalizing users with
  | nil => rfl
  | cons r rest ih =>
      simp only [List.foldl_cons]
      rw [ih, userSeriesOf_processReview_other _ _ _ _ h]

theorem hasUser_foldl_commits (users : AggUsers) (cs : List CommitEvent) (login : String) :
    hasUser (cs.foldl processCommit users) login
      = (hasUser users login || cs.any (fun c => commitHasLogin c login)) := by
  induction cs generalizing users with
  | nil => simp
  | cons c rest ih =>
      simp only [List.foldl_cons, List.any_cons]
      rw [ih, hasUser_processCommit, Bool.or_assoc]

theorem hasUser_foldl_pullRequests (users : AggUsers) (ps : List PullRequestEvent)
    (login : String) :
    hasUser (ps.foldl processPullRequest users) login
      = (hasUser users login || ps.any (fun p => prHasLogin p login)) := by
  induction ps generalizing users with
  | nil => simp
  | cons p rest ih =>
      simp only [List.foldl_cons, List.any_cons]
      rw [ih, hasUser_processPullRequest, Bool.or_assoc]

theorem hasUser_foldl_reviews (users : AggUsers) (rs : List ReviewEvent) (login : String) :
    hasUser (rs.foldl processReview users) login
      = (hasUser users login || rs.any (fun r => reviewHasLogin r login)) := by
  induction rs generalizing users with
  | nil => simp
  | cons r rest ih =>
      simp only [List.foldl_cons, List.any_cons]
      rw [ih, hasUser_processReview, Bool.or_assoc]

/-- The counts of a finished run depend only on how many events of each
list hit each (user, year, month) cell, never on the order of the lists. -/
theorem aggregateStats_counts (users : AggUsers) (cs : List CommitEvent)
    (ps : List PullRequestEvent) (rs : List ReviewEvent) (login y m : String) :
    monthCount (aggregateStats users cs ps rs) Metric.commits login y m
        = monthCount users Metric.commits login y m
            + cs.countP (fun c => commitHitMonth c login y m) ∧
    yearTotal (aggregateStats users cs ps rs) Metric.commits login y
        = yearTotal users Metric.commits login y
            + cs.countP (fun c => commitHitYear c login y) ∧
    monthCount (aggregateStats users cs ps rs) Metric.pullRequests login y m
        = monthCount users Metric.pullRequests login y m
            + ps.countP (fun p => prHitMonth p login y m) ∧
    yearTotal (aggregateStats users cs ps rs) Metric.pullRequests login y
        = yearTotal users Metric.pullRequests login y
            + ps.countP (fun p => prHitYear p login y) ∧
    monthCount (aggregateStats users cs ps rs) Metric.codeReviews login y m
        = monthCount users Metric.codeReviews login y m
            + rs.countP (fun r => reviewHitMonth r login y m) ∧
    yearTotal (aggregateStats users cs ps rs) Metric.codeReviews login y
        = yearTotal users Metric.codeReviews login y
            + rs.countP (fun r => reviewHitYear r login y) ∧
    hasUser (aggregateStats users cs ps rs) login
        = (hasUser users login || cs.any (fun c => commitHasLogin c login)
            || ps.any (fun p => prHasLogin p login)
            || rs.any (fun r => reviewHasLogin r login)) := by
  unfold aggregateStats
  refine ⟨?_, ?_, ?_, ?_, ?_, ?_, ?_⟩
  · show monthCount _ Metric.commits login y m = _
    unfold monthCount
    rw [userSeriesOf_foldl_reviews_other _ _ _ _ (by simp),
      userSeriesOf_foldl_pullRequests_other _ _ _ _ (by simp)]
    exact monthCount_foldl_commits users cs login y m
  · show yearTotal _ Metric.commits login y = _
    unfold yearTotal
    rw [userSeriesOf_foldl_reviews_other _ _ _ _ (by simp),
      userSeriesOf_foldl_pullRequests_other _ _ _ _ (by simp)]
    exact yearTotal_foldl_commits users cs login y
  · show monthCount _ Metric.pullRequests login y m = _
    unfold monthCount
    rw [userSeriesOf_foldl_reviews_other _ _ _ _ (by simp)]
    have := monthCount_foldl_pullRequests (cs.foldl processCommit users) ps login y m
    unfold monthCount at this
    rw [this, userSeriesOf_foldl_commits_other _ _ _ _ (by simp)]
  · show yearTotal _ Metric.pullRequests login y = _
    unfold yearTotal
    rw [userSeriesOf_foldl_reviews_other _ _ _ _ (by simp)]
    have := yearTotal_foldl_pullRequests (cs.foldl processCommit users) ps login y
    unfold yearTotal at this
    rw [this, userSeriesOf_foldl_commits_other _ _ _ _ (by simp)]
  · show monthCount _ Metric.codeReviews login y m = _
    have := monthCount_foldl_reviews
      (ps.foldl processPullRequest (cs.foldl processCommit users)) rs login y m
    unfold monthCount at this ⊢
    rw [this, userSeriesOf_foldl_pullRequests_other _ _ _ _ (by simp),
      userSeriesOf_foldl_commits_other _ _ _ _ (by simp)]
  · show yearTotal _ Metric.codeReviews login y = _
    have := yearTotal_foldl_reviews
      (ps.foldl processPullRequest (cs.foldl processCommit users)) rs login y
    unfold yearTotal at this ⊢
    rw [this, userSeriesOf_foldl_pullRequests_other _ _ _ _ (by simp),
      userSeriesOf_foldl_commits_other _ _ _ _ (by simp)]
  · rw [hasUser_foldl_reviews, hasUser_foldl_pullRequests, hasUser_foldl_commits]

theorem perm_any_eq {α : Type} {l l' : List α} (h : l.Perm l') (p : α → Bool) :
    l.any p = l'.any p := by
  cases ha : l.any p with
  | true =>
      obtain ⟨x, hx, hpx⟩ := List.any_eq_true.1 ha
      exact (List.any_eq_true.2 ⟨x, h.mem_iff.1 hx, hpx⟩).symm
  | false =>
      cases hb : l'.any p with
      | false => rfl
      | true =>
          obtain ⟨x, hx, hpx⟩ := List.any_eq_true.1 hb
          have hcontra : l.any p = true := List.any_eq_true.2 ⟨x, h.mem_iff.2 hx, hpx⟩
          rw [ha] at hcontra
          exact hcontra

/-- C6 amended.  Aggregating permuted event lists yields the same user set
and, for every (user, metric kind, year, month), the same running totals
and per-month counts as the original lists: the aggregation is commutative
per entry.  The serialized documents need not be byte-identical, because
the insertion order of user and month keys (and the first-seen avatar)
does depend on event order. -/
theorem aggregateStats_permutation_invariant (users : AggUsers)
    (cs cs' : List CommitEvent) (ps ps' : List PullRequestEvent)
    (rs rs' : List ReviewEvent) (metric : Metric) (login y m : String)
    (h1 : cs.Perm cs') (h2 : ps.Perm ps') (h3 : rs.Perm rs') :
    monthCount (aggregateStats users cs ps rs) metric login y m
        = monthCount (aggregateStats users cs' ps' rs') metric login y m ∧
    yearTotal (aggregateStats users cs ps rs) metric login y
        = yearTotal (aggregateStats users cs' ps' rs') metric login y ∧
    hasUser (aggregateStats users cs ps rs) login
        = hasUser (aggregateStats users cs' ps' rs') login := by
  have hA := aggregateStats_counts users cs ps rs login y m
  have hB := aggregateStats_counts users cs' ps' rs' login y m
  refine ⟨?_, ?_, ?_⟩
  · cases metric with
    | commits => rw [hA.1, hB.1, h1.countP_eq]
    | pullRequests => rw [hA.2.2.1, hB.2.2.1, h2.countP_eq]
    | codeReviews => rw [hA.2.2.2.2.1, hB.2.2.2.2.1, h3.countP_eq]
  · cases metric with
    | commits => rw [hA.2.1, hB.2.1, h1.countP_eq]
    | pullRequests => rw [hA.2.2.2.1, hB.2.2.2.1, h2.countP_eq]
    | codeReviews => rw [hA.2.2.2.2.2.1, hB.2.2.2.2.2.1, h3.countP_eq]
  · rw [hA.2.2.2.2.2.2, hB.2.2.2.2.2.2, perm_any_eq h1, perm_any_eq h2, perm_any_eq h3]

/-- A commit by bob used by the reordering counterexample. -/
def sampleBobCommit : CommitEvent :=
  { author := some { login := "bob", avatar_url := "b.png" }, date := { year := 2024, month := 2 } }

/-- C6 counterexample.  Swapping two commit events by different users
changes the insertion order of the users map, so the produced summary
document (whose serialization preserves that order) is not byte-identical
to the original one. -/
theorem aggregateStats_reorder_counterexample :
    aggregateStats [] [sampleCommit, sampleBobCommit] [] []
      ≠ aggregateStats [] [sampleBobCommit, sampleCommit] [] [] := by
  decide

/-- C6 witness: the permutation-invariance theorem applied to those same
two swapped commit lists. -/
theorem aggregateStats_permutation_invariant_witness :
    ([sampleCommit, sampleBobCommit].Perm [sampleBobCommit, sampleCommit]) ∧
    monthCount (aggregateStats [] [sampleCommit, sampleBobCommit] [] [])
        Metric.commits "alice" "2024" "03"
      = monthCount (aggregateStats [] [sampleBobCommit, sampleCommit] [] [])
        Metric.commits "alice" "2024" "03" := by
  have hperm : ([sampleCommit, sampleBobCommit].Perm [sampleBobCommit, sampleCommit]) :=
    List.Perm.swap _ _ _
  exact ⟨hperm,
    (aggregateStats_permutation_invariant [] _ _ _ _ _ _ Metric.commits "alice" "2024" "03"
      hperm (List.Perm.refl []) (List.Perm.refl [])).1⟩

/-! ### Query engine data model (src/js/DataService.js) -/

/-- A user entry of the loaded stats document.  Each metric series may be
absent on old documents; every access site of the query engine guards with
|| or optional chaining, which the Option type and getD reproduce. -/
structure UserData where
  avatar : String
  commits : Option Series
  pullRequests : Option Series
  codeReviews : Option Series
deriving DecidableEq, Repr

/-- Dynamic property access userData[metric]. -/
def UserData.metricSeries (u : UserData) : Metric → Option Series
  | Metric.commits => u.commits
  | Metric.pullRequests => u.pullRequests
  | Metric.codeReviews => u.codeReviews

/-- The loaded summary document (this.data). -/
structure Doc where
  lastUpdated : String
  organizations : List String
  users : List (String × UserData)
deriving DecidableEq, Repr

/-- Filter options of getUserStats, with the source defaults. -/
structure Filters where
  year : String := "all"
  month : String := "all"
  metric : Metric := Metric.commits
  excludedUsers : List String := []
deriving DecidableEq, Repr

/-- The inline total computation of getUserStats (DataService.js lines
115 to 137): userData[metric] with an empty-object fallback, then either a
sum over all year buckets or a single-year lookup, with month filtering. -/
def inlineMetricTotal (userData : UserData) (metric : Metric) (year month : String) : Nat :=
  let metricData := (userData.metricSeries metric).getD []
  if year = "all" then
    metricData.foldl (fun total p =>
      if month = "all" then total + p.2.total
      else total + (jsGet p.2.months month).getD 0) 0
  else
    match jsGet metricData year with
    | some yearData =>
        if month = "all" then yearData.total
        else (jsGet yearData.months month).getD 0
    | none => 0

/-- The private helper getMetricValue (DataService.js lines 158 to 182),
transcribed separately from the inline computation it duplicates. -/
def getMetricValue (userData : UserData) (metric : Metric) (year month : String) : Nat :=
  let metricData := (userData.metricSeries metric).getD []
  if year = "all" then
    metricData.foldl (fun total p =>
      if month = "all" then total + p.2.total
      else total + (jsGet p.2.months month).getD 0) 0
  else
    match jsGet metricData year with
    | some yearData =>
        if month = "all" then yearData.total
        else (jsGet yearData.months month).getD 0
    | none => 0

/-- The row object pushed by getUserStats (lines 140 to 146). -/
structure UserRow where
  username : String
  avatar : String
  value : Nat
  commits : Nat
  pullRequests : Nat
deriving DecidableEq, Repr

/-- The row pushed for one user entry. -/
def rowFor (f : Filters) (username : String) (userData : UserData) : UserRow :=
  { username := username
    avatar := userData.avatar
    value := inlineMetricTotal userData f.metric f.year f.month
    commits := getMetricValue userData Metric.commits f.year f.month
    pullRequests := getMetricValue userData Metric.pullRequests f.year f.month }

/-- One iteration of the user loop of getUserStats: skip excluded users,
compute the total, and push a row only when it is strictly positive. -/
def emitRow (f : Filters) (results : List UserRow) (entry : String × UserData) : List UserRow :=
  if f.excludedUsers.contains entry.1 then results
  else if 0 < inlineMetricTotal entry.2 f.metric f.year f.month then
    results ++ [rowFor f entry.1 entry.2]
  else results

/-- The comparator of results.sort((a, b) => b.value - a.value): descending
by value, ties kept stable. -/
def rowGE (a b : UserRow) : Prop := b.value ≤ a.value

instance : DecidableRel rowGE := fun a b => Nat.decLe b.value a.value

/-- getUserStats: the empty list before a document is loaded; otherwise
build rows over the user entries and sort them by value descending. -/
def getUserStats (data : Option Doc) (f : Filters) : List UserRow :=
  match data with
  | none => []
  | some d => List.insertionSort rowGE (d.users.foldl (emitRow f) [])

/-- The accumulator shape of getAggregatedStats. -/
structure AggregatedStats where
  commits : Nat
  pullRequests : Nat
  contributors : Nat
deriving DecidableEq, Repr

/-- getAggregatedStats: reduce over getUserStats with the zero accumulator. -/
def getAggregatedStats (data : Option Doc) (f : Filters) : AggregatedStats :=
  (getUserStats data f).foldl
    (fun acc u =>
      { commits := acc.commits + u.commits
        pullRequests := acc.pullRequests + u.pullRequests
        contributors := acc.contributors + 1 })
    { commits := 0, pullRequests := 0, contributors := 0 }

/-- years.add(year): a JS Set modelled as a duplicate-free insertion list. -/
def addToSet (s : List String) (y : String) : List String :=
  if s.contains y then s else s ++ [y]

/-- The per-user body of the getAvailableYears loop: add the year keys of
the commits series, then of the pullRequests series.  The codeReviews
series is not scanned. -/
def collectUserYears (years : List String) (p : String × UserData) : List String :=
  let years := (p.2.commits.getD []).foldl (fun ys q => addToSet ys q.1) years
  (p.2.pullRequests.getD []).foldl (fun ys q => addToSet ys q.1) years

/-- getAvailableYears: collect the year keys of every commits and
pullRequests series into a set, sort, and reverse (descending). -/
def getAvailableYears (data : Option Doc) : List String :=
  match data with
  | none => []
  | some d =>
      let years := d.users.foldl collectUserYears []
      (List.insertionSort (fun a b : String => a ≤ b) years).reverse

/-- Filter options of getTrendData, with the source defaults. -/
structure TrendQuery where
  year : String
  metric : Metric := Metric.commits
  topN : Nat := 10
  excludedUsers : List String := []
deriving DecidableEq, Repr

/-- One chart dataset: the username label and the numeric points.  The
constant styling fields (colors, tension, fill) carry no data and are
omitted from the model. -/
structure TrendDataset where
  label : String
  data : List Nat
deriving DecidableEq, Repr

/-- The trend result: axis labels and one dataset per top user. -/
structure TrendResult where
  labels : List String
  datasets : List TrendDataset
deriving DecidableEq, Repr

/-- Fallback for the users[username] lookup inside getTrendData; it cannot
actually be hit because top users are drawn from the document entries. -/
def missingUserData : UserData :=
  { avatar := "", commits := none, pullRequests := none, codeReviews := none }

/-- The filter object getTrendData passes to getUserStats for ranking. -/
def trendFilters (q : TrendQuery) : Filters :=
  { year := q.year, month := "all", metric := q.metric, excludedUsers := q.excludedUsers }

/-- The month-key literal of getTrendData. -/
def monthKeyStrings : List String :=
  ["01", "02", "03", "04", "05", "06", "07", "08", "09", "10", "11", "12"]

/-- The abbreviated month-name literal of getTrendData. -/
def monthNameStrings : List String :=
  ["Jan", "Feb", "Mar", "Apr", "May", "Jun", "Jul", "Aug", "Sep", "Oct", "Nov", "Dec"]

/-- getTrendData: null (none) before a document is loaded; otherwise rank
the top-N users under the year filter, then build a yearly series when
year is "all", or a monthly series for the requested year, truncating at
the current month when the requested year is the current calendar year.
The clock value read by new Date() is passed in as now. -/
def getTrendData (data : Option Doc) (q : TrendQuery) (now : JDate) : Option TrendResult :=
  match data with
  | none => none
  | some d =>
      let topUsers := (getUserStats (some d) (trendFilters q)).take q.topN
      if q.year = "all" then
        let years := List.insertionSort (fun a b : String => a ≤ b) (getAvailableYears (some d))
        let datasets := topUsers.map (fun u =>
          let userData := (jsGet d.users u.username).getD missingUserData
          let metricData := (userData.metricSeries q.metric).getD []
          { label := u.username
            data := years.map (fun y => ((jsGet metricData y).map (fun b => b.total)).getD 0) })
        some { labels := years, datasets := datasets }
      else
        let months :=
          if q.year = toString now.year then monthKeyStrings.take (now.month + 1)
          else monthKeyStrings
        let monthLabels :=
          if q.year = toString now.year then monthNameStrings.take (now.month + 1)
          else monthNameStrings
        let datasets := topUsers.map (fun u =>
          let userData := (jsGet d.users u.username).getD missingUserData
          let metricData :=
            (((userData.metricSeries q.metric).bind (fun s => jsGet s q.year)).map
              (fun b => b.months)).getD []
          { label := u.username
            data := months.map (fun m => (jsGet metricData m).getD 0) })
        some { labels := monthLabels, datasets := datasets }

/-- getUserStats as a method on the service state (this.data).  The body of
the source method only reads this.data; the push and sort act on the local
results array, so the method leaves the state unchanged, which the
transcription records by returning the incoming state. -/
def getUserStatsMethod (s : Option Doc) (f : Filters) : List UserRow × Option Doc :=
  (getUserStats s f, s)

/-- getAggregatedStats as a method on the service state. -/
def getAggregatedStatsMethod (s : Option Doc) (f : Filters) : AggregatedStats × Option Doc :=
  (getAggregatedStats s f, s)

/-- getTrendData as a method on the service state. -/
def getTrendDataMethod (s : Option Doc) (q : TrendQuery) (now : JDate) :
    Option TrendResult × Option Doc :=
  (getTrendData s q now, s)

/-- A JS value stored in a row object: a string or a number. -/
inductive JsValue where
  | str (s : String)
  | num (n : Nat)
deriving DecidableEq, Repr

/-- The object literal pushed by getUserStats (lines 140 to 146) viewed as
a JS object: exactly these five properties, in this order.  Property
access under any other name (such as codeReviews) yields undefined,
modelled as a none lookup. -/
def UserRow.toObject (r : UserRow) : List (String × JsValue) :=
  [("username", JsValue.str r.username),
   ("avatar", JsValue.str r.avatar),
   ("value", JsValue.num r.value),
   ("commits", JsValue.num r.commits),
   ("pullRequests", JsValue.num r.pullRequests)]

/-! ### Query engine theorems -/

/-- A loaded but empty document. -/
def emptyDoc : Doc := { lastUpdated := "", organizations := [], users := [] }

/-- C4 amended.  Invoked before a document is loaded, getUserStats returns
the empty list, getAggregatedStats returns the zero totals, and
getTrendData returns the null sentinel; none of them raises an error, and
the getUserStats and getAggregatedStats results are identical to those on
a loaded empty document, so only the null of getTrendData is a
distinguishable sentinel. -/
theorem queryEngine_no_document_defaults (f : Filters) (q : TrendQuery) (now : JDate) :
    getUserStats none f = [] ∧
    getAggregatedStats none f = { commits := 0, pullRequests := 0, contributors := 0 } ∧
    getTrendData none q now = none ∧
    getUserStats none f = getUserStats (some emptyDoc) f ∧
    getAggregatedStats none f = getAggregatedStats (some emptyDoc) f :=
  ⟨rfl, rfl, rfl, rfl, rfl⟩

/-- C4 counterexample.  A rank or totals call before any document is
loaded returns an ordinary-looking value, equal to the result on a loaded
empty document, and the trend call returns plain null: no operation
raises a typed "no data loaded" condition. -/
theorem queryEngine_no_document_counterexample :
    getUserStats none ({ } : Filters) = getUserStats (some emptyDoc) ({ } : Filters) ∧
    getAggregatedStats none ({ } : Filters) = getAggregatedStats (some emptyDoc) ({ } : Filters) ∧
    getTrendData none { year := "all" } { year := 2025, month := 3 } = none :=
  ⟨rfl, rfl, rfl⟩

/-- C9.  The three query operations leave the service state (the loaded
document) unchanged: the source method bodies contain no write to
this.data, which the state-passing transcription makes explicit. -/
theorem queryEngine_leaves_document_unchanged (s : Option Doc) (f : Filters)
    (q : TrendQuery) (now : JDate) :
    (getUserStatsMethod s f).2 = s ∧
    (getAggregatedStatsMethod s f).2 = s ∧
    (getTrendDataMethod s q now).2 = s :=
  ⟨rfl, rfl, rfl⟩

theorem foldl_emitRow_eq (f : Filters) (l : List (String × UserData)) (init : List UserRow) :
    l.foldl (emitRow f) init = init ++ l.foldl (emitRow f) [] := by
  induction l generalizing init with
  | nil => simp
  | cons p rest ih =>
      simp only [List.foldl_cons]
      rw [ih (emitRow f init p), ih (emitRow f [] p)]
      unfold emitRow
      by_cases h1 : p.1 ∈ f.excludedUsers <;>
        by_cases h2 : 0 < inlineMetricTotal p.2 f.metric f.year f.month <;>
          simp [h1, h2]

theorem mem_rowsOf (f : Filters) (l : List (String × UserData)) (row : UserRow) :
    row ∈ l.foldl (emitRow f) [] ↔
      ∃ p ∈ l, p.1 ∉ f.excludedUsers ∧
        0 < inlineMetricTotal p.2 f.metric f.year f.month ∧ row = rowFor f p.1 p.2 := by
  induction l with
  | nil => simp
  | cons p rest ih =>
      rw [List.foldl_cons, foldl_emitRow_eq, List.mem_append, ih]
      unfold emitRow
      by_cases h1 : p.1 ∈ f.excludedUsers <;>
        by_cases h2 : 0 < inlineMetricTotal p.2 f.metric f.year f.month <;>
          simp [h1, h2]

theorem mem_getUserStats (d : Doc) (f : Filters) (row : UserRow) :
    row ∈ getUserStats (some d) f ↔
      ∃ p ∈ d.users, p.1 ∉ f.excludedUsers ∧
        0 < inlineMetricTotal p.2 f.metric f.year f.month ∧ row = rowFor f p.1 p.2 := by
  unfold getUserStats
  rw [List.mem_insertionSort]
  exact mem_rowsOf f d.users row

/-- C5.  Zero-suppression of getUserStats: every returned row has a
strictly positive value and stems from a non-excluded user entry whose
filtered total it carries; conversely every non-excluded user entry with a
strictly positive filtered total contributes its row; and when a specific
year absent from the selected metric series is requested, the filtered
total is 0, so no row is emitted for that user. -/
theorem getUserStats_zero_suppression (d : Doc) (f : Filters) :
    (∀ row ∈ getUserStats (some d) f,
        0 < row.value ∧
        ∃ p ∈ d.users, row.username = p.1 ∧ p.1 ∉ f.excludedUsers ∧
          row.value = inlineMetricTotal p.2 f.metric f.year f.month) ∧
    (∀ p ∈ d.users, p.1 ∉ f.excludedUsers →
        0 < inlineMetricTotal p.2 f.metric f.year f.month →
        rowFor f p.1 p.2 ∈ getUserStats (some d) f) ∧
    (∀ u : UserData, f.year ≠ "all" →
        jsGet ((u.metricSeries f.metric).getD []) f.year = none →
        inlineMetricTotal u f.metric f.year f.month = 0) := by
  refine ⟨?_, ?_, ?_⟩
  · intro row hrow
    obtain ⟨p, hp, hexc, hpos, heq⟩ := (mem_getUserStats d f row).1 hrow
    subst heq
    exact ⟨hpos, p, hp, rfl, hexc, rfl⟩
  · intro p hp hexc hpos
    exact (mem_getUserStats d f _).2 ⟨p, hp, hexc, hpos, rfl⟩
  · intro u hyear hnone
    unfold inlineMetricTotal
    simp [hyear, hnone]

/-- The user entry of the concrete witness document. -/
def sampleUserData : UserData :=
  { avatar := "a.png"
    commits := some [("2024", { total := 1, months := [("03", 1)] })]
    pullRequests := some []
    codeReviews := some [("2024", { total := 2, months := [("03", 2)] })] }

/-- A concrete loaded document with one user. -/
def sampleDoc : Doc :=
  { lastUpdated := "", organizations := ["acme"], users := [("alice", sampleUserData)] }

/-- C5 witness: on the concrete document, the user entry for alice is not
excluded, has positive filtered total, and its row is returned. -/
theorem getUserStats_zero_suppression_witness :
    (("alice", sampleUserData) ∈ sampleDoc.users ∧
      "alice" ∉ (({ } : Filters)).excludedUsers ∧
      0 < inlineMetricTotal sampleUserData ({ } : Filters).metric
            ({ } : Filters).year ({ } : Filters).month) ∧
    rowFor ({ } : Filters) "alice" sampleUserData ∈ getUserStats (some sampleDoc) ({ } : Filters) := by
  refine ⟨⟨by simp [sampleDoc], by simp, by decide⟩, ?_⟩
  exact (getUserStats_zero_suppression sampleDoc ({ } : Filters)).2.1
    ("alice", sampleUserData) (by simp [sampleDoc]) (by simp) (by decide)

/-- C10.  The inline total computation of getUserStats and the
getMetricValue helper agree on every input, hence every returned row is
internally consistent: under the commits metric the value field equals the
commits field, and under the pullRequests metric it equals the
pullRequests field. -/
theorem getUserStats_row_consistency :
    (∀ (u : UserData) (metric : Metric) (year month : String),
        inlineMetricTotal u metric year month = getMetricValue u metric year month) ∧
    (∀ (d : Doc) (f : Filters), ∀ row ∈ getUserStats (some d) f,
        (f.metric = Metric.commits → row.value = row.commits) ∧
        (f.metric = Metric.pullRequests → row.value = row.pullRequests)) := by
  have hagree : ∀ (u : UserData) (metric : Metric) (year month : String),
      inlineMetricTotal u metric year month = getMetricValue u metric year month :=
    fun u metric year month => rfl
  refine ⟨hagree, ?_⟩
  intro d f row hrow
  obtain ⟨p, hp, hexc, hpos, heq⟩ := (mem_getUserStats d f row).1 hrow
  subst heq
  constructor
  · intro hm
    show inlineMetricTotal p.2 f.metric f.year f.month
        = getMetricValue p.2 Metric.commits f.year f.month
    rw [hm, hagree]
  · intro hm
    show inlineMetricTotal p.2 f.metric f.year f.month
        = getMetricValue p.2 Metric.pullRequests f.year f.month
    rw [hm, hagree]

/-- C10 witness: on the concrete document under the commits metric, the
returned row for alice has its value field equal to its commits field. -/
theorem getUserStats_row_consistency_witness :
    (rowFor ({ } : Filters) "alice" sampleUserData ∈ getUserStats (some sampleDoc) ({ } : Filters)) ∧
    (rowFor ({ } : Filters) "alice" sampleUserData).value
      = (rowFor ({ } : Filters) "alice" sampleUserData).commits := by
  have hmem : rowFor ({ } : Filters) "alice" sampleUserData
      ∈ getUserStats (some sampleDoc) ({ } : Filters) := by decide
  exact ⟨hmem,
    (getUserStats_row_consistency.2 sampleDoc ({ } : Filters) _ hmem).1 rfl⟩

/-- C3 counterexample.  On a loaded document with zero users (so zero top
users qualify), the trend operation returns an ordinary result with an
empty series list, not the distinguished null sentinel: the claim fails
on this input. -/
theorem getTrendData_sentinel_counterexample :
    getTrendData (some emptyDoc) { year := "all" } { year := 2025, month := 3 }
        = some { labels := [], datasets := [] } ∧
    getTrendData (some emptyDoc) { year := "all" } { year := 2025, month := 3 } ≠ none := by
  refine ⟨rfl, ?_⟩
  intro h
  simp [getTrendData, emptyDoc, getAvailableYears, getUserStats] at h

/-- C3 amended.  getTrendData returns the null sentinel exactly when no
document is loaded; on a loaded document it always returns a valid
result, and when the top-N ranking step yields zero qualifying users that
result carries an empty series list (the labels still describe the
axis). -/
theorem getTrendData_no_data (q : TrendQuery) (now : JDate) :
    (getTrendData none q now = none) ∧
    (∀ d : Doc, getTrendData (some d) q now ≠ none) ∧
    (∀ d : Doc, (getUserStats (some d) (trendFilters q)).take q.topN = [] →
        ∃ r, getTrendData (some d) q now = some r ∧ r.datasets = []) := by
  refine ⟨rfl, ?_, ?_⟩
  · intro d
    unfold getTrendData
    by_cases h : q.year = "all" <;> simp [h]
  · intro d htop
    by_cases h : q.year = "all"
    · refine ⟨{ labels := List.insertionSort (fun a b : String => a ≤ b)
                  (getAvailableYears (some d)),
                datasets := [] }, ?_, rfl⟩
      simp [getTrendData, h, htop]
    · refine ⟨{ labels := if q.year = toString now.year
                  then monthNameStrings.take (now.month + 1) else monthNameStrings,
                datasets := [] }, ?_, rfl⟩
      simp [getTrendData, h, htop]

/-- C3 witness: the amended theorem applied to the loaded empty document,
whose top-user list is empty. -/
theorem getTrendData_no_data_witness :
    ((getUserStats (some emptyDoc) (trendFilters { year := "all" })).take
        (({ year := "all" } : TrendQuery)).topN = []) ∧
    ∃ r, getTrendData (some emptyDoc) { year := "all" } { year := 2025, month := 3 } = some r ∧
      r.datasets = [] := by
  refine ⟨rfl, ?_⟩
  exact (getTrendData_no_data { year := "all" } { year := 2025, month := 3 }).2.2 emptyDoc rfl

theorem mem_addToSet (s : List String) (z y : String) :
    y ∈ addToSet s z ↔ y ∈ s ∨ y = z := by
  unfold addToSet
  by_cases hc : s.contains z = true
  · rw [if_pos hc]
    have hz : z ∈ s := by simpa using hc
    constructor
    · exact Or.inl
    · rintro (h' | rfl)
      · exact h'
      · exact hz
  · rw [if_neg hc]
    simp

theorem nodup_addToSet (s : List String) (z : String) (h : s.Nodup) :
    (addToSet s z).Nodup := by
  unfold addToSet
  by_cases hc : s.contains z = true
  · rw [if_pos hc]
    exact h
  · rw [if_neg hc]
    have hz : z ∉ s := by simpa using hc
    simp [List.nodup_append, h, hz]

theorem mem_foldl_addToSet (l : Series) (s : List String) (y : String) :
    y ∈ l.foldl (fun ys q => addToSet ys q.1) s ↔ y ∈ s ∨ ∃ q ∈ l, q.1 = y := by
  induction l generalizing s with
  | nil => simp
  | cons q rest ih =>
      simp only [List.foldl_cons]
      rw [ih, mem_addToSet]
      constructor
      · rintro (( h | rfl) | ⟨p, hp, hpy⟩)
        · exact Or.inl h
        · exact Or.inr ⟨q, List.mem_cons_self q rest, rfl⟩
        · exact Or.inr ⟨p, List.mem_cons_of_mem q hp, hpy⟩
      · rintro (h | ⟨p, hp, hpy⟩)
        · exact Or.inl (Or.inl h)
        · rcases List.mem_cons.1 hp with rfl | hp'
          · exact Or.inl (Or.inr hpy.symm)
          · exact Or.inr ⟨p, hp', hpy⟩

theorem nodup_foldl_addToSet (l : Series) (s : List String) (h : s.Nodup) :
    (l.foldl (fun ys q => addToSet ys q.1) s).Nodup := by
  induction l generalizing s with
  | nil => exact h
  | cons q rest ih =>
      simp only [List.foldl_cons]
      exact ih _ (nodup_addToSet s q.1 h)

theorem mem_foldl_collectUserYears (users : List (String × UserData)) (s : List String)
    (y : String) :
    y ∈ users.foldl collectUserYears s ↔
      y ∈ s ∨ ∃ p ∈ users, (∃ q ∈ (p.2.commits.getD [] : Series), q.1 = y) ∨
        ∃ q ∈ (p.2.pullRequests.getD [] : Series), q.1 = y := by
  induction users generalizing s with
  | nil => simp
  | cons p rest ih =>
      simp only [List.foldl_cons]
      rw [ih]
      unfold collectUserYears
      rw [mem_foldl_addToSet, mem_foldl_addToSet]
      constructor
      · rintro ((( h | hcm) | hpr) | ⟨p', hp', hy⟩)
        · exact Or.inl h
        · exact Or.inr ⟨p, List.mem_cons_self p rest, Or.inl hcm⟩
        · exact Or.inr ⟨p, List.mem_cons_self p rest, Or.inr hpr⟩
        · exact Or.inr ⟨p', List.mem_cons_of_mem p hp', hy⟩
      · rintro (h | ⟨p', hp', hy⟩)
        · exact Or.inl (Or.inl (Or.inl h))
        · rcases List.mem_cons.1 hp' with rfl | hp''
          · rcases hy with hy | hy
            · exact Or.inl (Or.inl (Or.inr hy))
            · exact Or.inl (Or.inr hy)
          · exact Or.inr ⟨p', hp'', hy⟩

theorem nodup_foldl_collectUserYears (users : List (String × UserData)) (s : List String)
    (h : s.Nodup) : (users.foldl collectUserYears s).Nodup := by
  induction users generalizing s with
  | nil => exact h
  | cons p rest ih =>
      simp only [List.foldl_cons]
      exact ih _ (nodup_foldl_addToSet _ _ (nodup_foldl_addToSet _ _ h))

/-- C8.  getAvailableYears returns exactly the union of the year keys of
every commits and pullRequests series (years appearing only in a
codeReviews series are not scanned), without duplicates and sorted in
descending string order. -/
theorem getAvailableYears_spec (d : Doc) :
    (∀ y, y ∈ getAvailableYears (some d) ↔
        ∃ p ∈ d.users, (∃ q ∈ (p.2.commits.getD [] : Series), q.1 = y) ∨
          ∃ q ∈ (p.2.pullRequests.getD [] : Series), q.1 = y) ∧
    (getAvailableYears (some d)).Nodup ∧
    (getAvailableYears (some d)).Pairwise (fun a b => b ≤ a) := by
  refine ⟨?_, ?_, ?_⟩
  · intro y
    unfold getAvailableYears
    rw [List.mem_reverse, List.mem_insertionSort, mem_foldl_collectUserYears]
    simp
  · unfold getAvailableYears
    rw [List.nodup_reverse]
    exact ((List.perm_insertionSort _ _).nodup_iff).2
      (nodup_foldl_collectUserYears d.users [] List.nodup_nil)
  · unfold getAvailableYears
    rw [List.pairwise_reverse]
    exact List.sorted_insertionSort (fun a b : String => a ≤ b) _

/-- C2.  On a loaded document whose single user has nonzero codeReviews
activity, the row returned by getUserStats exposes only five properties,
so reading codeReviews from it (as renderUserCards in App.js does) yields
undefined, while the commits and pullRequests totals are present: rows do
not carry the codeReviews total. -/
theorem getUserStats_row_lacks_codeReviews :
    (getUserStats (some sampleDoc) ({ } : Filters)).map
        (fun r => jsGet r.toObject "codeReviews") = [none] ∧
    (getUserStats (some sampleDoc) ({ } : Filters)).map
        (fun r => jsGet r.toObject "commits") = [some (JsValue.num 1)] ∧
    (getUserStats (some sampleDoc) ({ } : Filters)).map
        (fun r => jsGet r.toObject "pullRequests") = [some (JsValue.num 0)] ∧
    seriesTotal (sampleUserData.codeReviews.getD []) "2024" = 2 := by
  decide

end GitLadder
